import Mathlib

/-
Shallow embedding of the EventEmitter class (src/unnamed/part_000, TypeScript).

Modelling conventions:
* A JavaScript function value is identified by an opaque natural-number id.
  Invoking a callback is delegated to an environment `Env` mapping the id and
  the argument list to a returned value and an updated emitter state; this lets
  a callback perform re-entrant registry operations (addListener etc.), which
  the source permits.
* A RegExp value is a `Pat`: its `src` models `String(regexp)` (used because
  the source indexes a response object by the regexp itself, coercing it to a
  string), and `test` models `RegExp.prototype.test` on a key.
* JavaScript strict equality (the `===` in indexOfListener and in the
  once-return-value comparison) is `jsEq`. Functions are equal exactly when
  their ids are equal; primitives compare by value; two object or regexp
  values are never equal, modelling that every object expression in the
  verified scenarios denotes a fresh reference. Comparisons of one and the
  same object reference with itself are not expressible, and no verified
  property needs them: the source never compares a stored record against the
  record object itself, only `storedRecord.listener === argument`.
* The `_events` table is an association list from key to listener array, in
  property insertion order, matching for-in enumeration order of the
  non-integer-like string keys used throughout. The lazily created or deleted
  `_events` object is observationally an empty table, so the state simply
  holds the list. The `_onceReturnValue` own-property check (hasOwnProperty)
  is an `Option`.
* A thrown TypeError from addListener is `Except.error s` carrying the state
  at the throw; the throw happens before any mutation, so that state is the
  input state.
-/

namespace EventEmitterModel

/-- Model of a RegExp object: `src` is its string coercion source, `test` its
match predicate on a candidate key. -/
structure Pat where
  src : String
  test : String → Bool

/-- JavaScript values that can appear as a listener argument or as a stored
listener record, and as listener return values. `fn` is a function value
identified by id; `obj` is a plain object with a `listener` field and a
boolean `once` field (the shape the source constructs and stores). -/
inductive JSArg where
  | fn (id : Nat)
  | regex (p : Pat)
  | obj (listener : JSArg) (once : Bool)
  | str (s : String)
  | num (n : Int)
  | bool (b : Bool)
  | null
  | undefined

/-- JavaScript strict equality `===` restricted to the values of the model.
Object and regexp values compare unequal: each such expression denotes a
fresh reference (see the header comment). -/
def jsEq : JSArg → JSArg → Bool
  | .fn i, .fn j => i == j
  | .str a, .str b => a == b
  | .num a, .num b => a == b
  | .bool a, .bool b => a == b
  | .null, .null => true
  | .undefined, .undefined => true
  | _, _ => false

/-- Reading `x.listener`: the field of a record object, `undefined` on
anything else (functions and regexps have no such property). -/
def listenerField : JSArg → JSArg
  | .obj l _ => l
  | _ => .undefined

/-- Reading `x.once === true`: the flag of a record object, false otherwise
(`undefined === true` is false). -/
def onceField : JSArg → Bool
  | .obj _ o => o
  | _ => false

/-- Source `typeof x === "object"` for the values reaching the wrap check in
addListener: record objects and regexps are objects, functions and
primitives are not (null is an object in JS but never passes validation). -/
def isObjectTyped : JSArg → Bool
  | .obj _ _ => true
  | .regex _ => true
  | _ => false

/-- Source function isValidListener: a function, a regexp, or (recursively) a
truthy object whose `.listener` field is valid. -/
def isValidListener : JSArg → Bool
  | .fn _ => true
  | .regex _ => true
  | .obj l _ => isValidListener l
  | _ => false

/-- Source function indexOfListener: scans the array backwards
(`while (i--)`) comparing `listeners[i].listener === listener`, returning the
largest matching index, -1 when none matches. The recursion searches the
tail (the larger indices) first. -/
def indexOfListener (listeners : List JSArg) (listener : JSArg) : Int :=
  match listeners with
  | [] => -1
  | r :: rest =>
    let i := indexOfListener rest listener
    if i ≠ -1 then i + 1
    else if jsEq (listenerField r) listener then 0 else -1

/-- Emitter state: the `_events` table (key to listener array, insertion
order) and the optional `_onceReturnValue` own property. -/
structure EE where
  events : List (String × List JSArg)
  onceReturnValue : Option JSArg

/-- The emitter state produced by `new EventEmitter()`. -/
def emptyEE : EE := ⟨[], none⟩

/-- The listener array stored for a key; an absent key reads as the empty
array (observationally what the source produces on demand). -/
def lookupList (k : String) (s : EE) : List JSArg :=
  ((s.events.find? fun kv => kv.1 == k).map Prod.snd).getD []

/-- Source `events[evt] || (events[evt] = [])` for a string key: materialise
an empty array for an absent key, appending the new property in insertion
order. -/
def touchKey (k : String) (s : EE) : EE :=
  if (s.events.find? fun kv => kv.1 == k).isSome then s
  else { s with events := s.events ++ [(k, [])] }

/-- Replace the stored array of key `k` by `f` applied to it (in-place array
mutation through the alias held by the caller). -/
def updateList (k : String) (f : List JSArg → List JSArg) (s : EE) : EE :=
  { s with events := s.events.map fun kv => if kv.1 == k then (kv.1, f kv.2) else kv }

/-- Event selector: an exact string key or a regexp. -/
inductive Evt where
  | str (s : String)
  | regex (p : Pat)

/-- String coercion of a regexp, as used when the source writes
`response[evt]` with a regexp `evt`. -/
def patStr (p : Pat) : String := "/" ++ p.src ++ "/"

/-- Result type of getListeners: an array for a string key, an object for a
regexp. -/
inductive GLResult where
  | arr (l : List JSArg)
  | map (m : List (String × List JSArg))

/-- Source method getListeners. For a string key it materialises and returns
the stored array. For a regexp the source loop executes
`response[evt] = events[key]` for every matching key: every iteration writes
the same property (the regexp coerced to a string), so the response ends up
with at most that one property, holding the array of the last matching key
in table order; with no match the response stays empty. -/
def getListeners (evt : Evt) (s : EE) : EE × GLResult :=
  match evt with
  | .str k =>
    let s1 := touchKey k s
    (s1, .arr (lookupList k s1))
  | .regex p =>
    match (s.events.filter fun kv => p.test kv.1).getLast? with
    | none => (s, .map [])
    | some kv => (s, .map [(patStr p, kv.2)])

/-- String coercion of a selector, as used when the source writes
`response[evt]` in getListenersAsObject. -/
def evtKeyStr : Evt → String
  | .str k => k
  | .regex p => patStr p

/-- Source method getListenersAsObject: wrap the array case into a one-entry
object keyed by the selector coerced to a string; pass an object result
through. -/
def getListenersAsObject (evt : Evt) (s : EE) : EE × List (String × List JSArg) :=
  match getListeners evt s with
  | (s1, .arr l) => (s1, [(evtKeyStr evt, l)])
  | (s1, .map m) => (s1, m)

/-- The table keys whose live arrays the getListenersAsObject response
aliases: the key itself for a string (after materialisation), and for a
regexp the last matching existing key, because the response holds
`events[lastMatch]` under the single property `String(evt)` (see
getListeners). Mutating methods push into or splice these live arrays. -/
def resolveTargets (evt : Evt) (s : EE) : EE × List String :=
  match evt with
  | .str k => (touchKey k s, [k])
  | .regex p =>
    match (s.events.filter fun kv => p.test kv.1).getLast? with
    | none => (s, [])
    | some kv => (s, [kv.1])

/-- Splice out the element at `indexOfListener listeners x` when that index
is not -1: removes the last element whose `.listener` field strict-equals
`x`, returns the list unchanged when none matches. -/
def removeLastMatching (l : List JSArg) (x : JSArg) : List JSArg :=
  match l with
  | [] => []
  | r :: rest =>
    if rest.any fun q => jsEq (listenerField q) x then r :: removeLastMatching rest x
    else if jsEq (listenerField r) x then rest
    else r :: rest

/-- Source method removeListener: for every key resolved for the selector,
splice out the last record whose `.listener` strict-equals the argument; a
missing match is a no-op. Never throws. -/
def removeListener (evt : Evt) (x : JSArg) (s : EE) : EE :=
  let st := resolveTargets evt s
  st.2.foldl (fun acc t => updateList t (fun l => removeLastMatching l x) acc) st.1

/-- Normalisation of the addListener argument before storing: a value of
object type (record or regexp) is pushed as is, a function is wrapped as
`{listener, once: false}`. -/
def wrapListener (l : JSArg) : JSArg :=
  if isObjectTyped l then l else .obj l false

/-- Source method addListener: throws a TypeError (error carries the
untouched input state, since the throw precedes all mutation) when the
argument fails validation; otherwise, for every resolved key, appends the
normalised record unless `indexOfListener` already finds a stored record
whose `.listener` strict-equals the argument. -/
def addListener (evt : Evt) (l : JSArg) (s : EE) : Except EE EE :=
  if isValidListener l then
    let st := resolveTargets evt s
    .ok (st.2.foldl
      (fun acc t =>
        if indexOfListener (lookupList t acc) l = -1 then
          updateList t (fun cur => cur ++ [wrapListener l]) acc
        else acc)
      st.1)
  else .error s

/-- Source method addOnceListener: addListener of the freshly constructed
record `{listener, once: true}`. -/
def addOnceListener (evt : Evt) (l : JSArg) (s : EE) : Except EE EE :=
  addListener evt (.obj l true) s

/-- Source method defineEvent: calls getListeners for its materialisation
side effect. -/
def defineEvent (evt : Evt) (s : EE) : EE :=
  (getListeners evt s).1

/-- Source method defineEvents. -/
def defineEvents (evts : List Evt) (s : EE) : EE :=
  evts.foldl (fun acc e => defineEvent e acc) s

/-- Source method setOnceReturnValue. -/
def setOnceReturnValue (v : JSArg) (s : EE) : EE :=
  { s with onceReturnValue := some v }

/-- Source method _getOnceReturnValue: the own property when set, else the
boolean true. -/
def getOnceReturnValue (s : EE) : JSArg :=
  s.onceReturnValue.getD (.bool true)

/-- Behaviour of the callbacks: given the function id, the argument array and
the emitter state at the call, produce the returned value and the state
after any re-entrant registry operations the callback performs. -/
def Env : Type := Nat → List JSArg → EE → JSArg × EE

/-- Callbacks that only compute a return value and perform no registry
operation. -/
def pureEnv (ret : Nat → JSArg) : Env := fun id _ s => (ret id, s)

/-- Inner loop of emitEvent over the snapshot (`slice(0)`) of one resolved
key. For each record in snapshot order: when `once === true`, first
`removeListener(evt, record.listener)` on the live state; then apply the
stored `.listener`; then when the returned value strict-equals the current
once return value, `removeListener(evt, record.listener)` again. Applying a
stored non-function listener throws, aborting the remaining dispatch: the
third component is false in that case. The trace records, per invocation in
order, the function id and the live state at the moment of the call. -/
def emitList (env : Env) (evt : Evt) (args : List JSArg) :
    List JSArg → EE → EE × List (Nat × EE) × Bool
  | [], s => (s, [], true)
  | r :: rest, s =>
    let s1 := if onceField r then removeListener evt (listenerField r) s else s
    match listenerField r with
    | .fn id =>
      let call := env id args s1
      let s3 := if jsEq call.1 (getOnceReturnValue call.2)
                then removeListener evt (.fn id) call.2 else call.2
      let res := emitList env evt args rest s3
      (res.1, (id, s1) :: res.2.1, res.2.2)
    | _ => (s1, [], false)

/-- Outer loop of emitEvent over the resolved key-to-array object. The object
always has at most one property (one string key, or the single regexp-keyed
property of getListeners), so the per-key `slice(0)` snapshots taken here at
loop start coincide with the source taking each snapshot when its key is
reached. An abort (thrown apply) stops the remaining keys. -/
def emitMapLoop (env : Env) (evt : Evt) (args : List JSArg) :
    List (String × List JSArg) → EE → EE × List (Nat × EE) × Bool
  | [], s => (s, [], true)
  | (_, snap) :: rest, s =>
    let one := emitList env evt args snap s
    if one.2.2 then
      let more := emitMapLoop env evt args rest one.1
      (more.1, one.2.1 ++ more.2.1, more.2.2)
    else one

/-- Source method emitEvent: resolve the selector to the key-to-array object
and run every resolved listener list. Returns the final state, the
invocation trace and whether the dispatch completed without a thrown apply. -/
def emitEvent (env : Env) (evt : Evt) (args : List JSArg) (s : EE) :
    EE × List (Nat × EE) × Bool :=
  let gm := getListenersAsObject evt s
  emitMapLoop env evt args gm.2 gm.1

/-- Source method emit: collects its trailing arguments into an array and
delegates to emitEvent. -/
def emit (env : Env) (evt : Evt) (args : List JSArg) (s : EE) :
    EE × List (Nat × EE) × Bool :=
  emitEvent env evt args s

/-- The live state right after the fire-once removal step for one record
wrapping callback `g` with flag `o` (the state at the moment of the apply
call in emitEvent). Pure naming of a sub-expression of emitList. -/
def stepOnce (evt : Evt) (g : Nat) (o : Bool) (s : EE) : EE :=
  if o then removeListener evt (.fn g) s else s

/-- The live state after invoking callback `g` from state `s` and applying
the once-return-value removal step. Pure naming of a sub-expression of
emitList. -/
def stepAfter (env : Env) (evt : Evt) (args : List JSArg) (g : Nat) (s : EE) : EE :=
  if jsEq (env g args s).1 (getOnceReturnValue (env g args s).2)
  then removeListener evt (.fn g) (env g args s).2 else (env g args s).2

/-- The property names of a getListeners object result (empty for an array
result). -/
def glKeys : GLResult → List String
  | .arr _ => []
  | .map m => m.map Prod.fst

/-- The state a caller holds after an addListener call whether or not it
threw: the error value carries the state at the throw. -/
def getEE : Except EE EE → EE
  | .ok s => s
  | .error s => s

/-- Bulk-manipulation selector: a string key or regexp, or a plain object
mapping keys to a single listener or an array of listeners (the two truthy
value shapes the source dispatches on). -/
inductive EMVal where
  | single (l : JSArg)
  | arr (ls : List JSArg)

inductive Events where
  | key (e : Evt)
  | map (m : List (String × EMVal))

/-- The singular operation selected by the remove flag: removeListener
(total) or addListener (may throw). -/
def runSingle (remove : Bool) (e : Evt) (l : JSArg) (s : EE) : Except EE EE :=
  if remove then .ok (removeListener e l s) else addListener e l s

/-- Source manipulateListeners, key-or-regexp branch:
`i = listeners.length; while (i--) single.call(this, evt, listeners[i])` —
the singular operation is applied to the entries from the last index down to
index 0. A thrown error propagates, skipping the remaining entries. -/
def manipulateKeyLoop (remove : Bool) (e : Evt) :
    List JSArg → EE → Except EE EE
  | [], s => .ok s
  | l :: rest, s =>
    match manipulateKeyLoop remove e rest s with
    | .ok s1 => runSingle remove e l s1
    | .error t => .error t

/-- Source manipulateListeners, object branch: for each own property in
order, a function value goes to the singular operation, an array value goes
back through the plural operation (which is the key branch above). -/
def manipulateMapLoop (remove : Bool) :
    List (String × EMVal) → EE → Except EE EE
  | [], s => .ok s
  | (k, .single l) :: rest, s =>
    match runSingle remove (.str k) l s with
    | .ok s1 => manipulateMapLoop remove rest s1
    | .error t => .error t
  | (k, .arr ls) :: rest, s =>
    match manipulateKeyLoop remove (.str k) ls s with
    | .ok s1 => manipulateMapLoop remove rest s1
    | .error t => .error t

/-- Source method manipulateListeners: branch on the selector shape
(`typeof evt === "object" && !(evt instanceof RegExp)` selects the object
branch; a string or regexp selects the key branch over the listeners
array). -/
def manipulateListeners (remove : Bool) (evt : Events) (ls : List JSArg) (s : EE) :
    Except EE EE :=
  match evt with
  | .map m => manipulateMapLoop remove m s
  | .key e => manipulateKeyLoop remove e ls s

/-- Source method addListeners: pass-through to manipulateListeners. -/
def addListeners (evt : Events) (ls : List JSArg) (s : EE) : Except EE EE :=
  manipulateListeners false evt ls s

/-- Source method removeListeners: pass-through to manipulateListeners. -/
def removeListeners (evt : Events) (ls : List JSArg) (s : EE) : Except EE EE :=
  manipulateListeners true evt ls s

/-- Modelled from the spec (section 4, bulk manipulate): applying the
singular operation to the entries of a list from left to right; the claimed
processing order of the source is this spec-side loop run on the reversed
listener array. -/
def applyEachLeft (remove : Bool) (e : Evt) : List JSArg → EE → Except EE EE
  | [], s => .ok s
  | l :: rest, s =>
    match runSingle remove e l s with
    | .ok s1 => applyEachLeft remove e rest s1
    | .error t => .error t

/-- Number of records in a list whose underlying callback is the function
with id `f`. -/
def countF (f : Nat) (l : List JSArg) : Nat :=
  l.countP fun r => jsEq (listenerField r) (.fn f)

/-- Number of fire-once records in a list whose underlying callback is the
function with id `f`. -/
def countOnceF (f : Nat) (l : List JSArg) : Nat :=
  l.countP fun r => jsEq (listenerField r) (.fn f) && onceField r

/-- The function ids underlying the records of a list, in order. -/
def cbIds (l : List JSArg) : List Nat :=
  l.filterMap fun r =>
    match listenerField r with
    | .fn i => some i
    | _ => none

/-- A well-formed record wraps a plain function. -/
def wfRec : JSArg → Bool
  | .obj (.fn _) _ => true
  | _ => false

def wfList (l : List JSArg) : Bool := l.all wfRec

/-- The function ids of an invocation trace, in call order. -/
def traceIds (tr : List (Nat × EE)) : List Nat := tr.map Prod.fst

/-! Concrete fixtures for evaluating the model. -/

/-- A regexp matching exactly the keys "foo" and "bar". -/
def patFooBar : Pat := ⟨"^(foo|bar)$", fun k => k == "foo" || k == "bar"⟩

/-- Table holding events "foo" and "bar" with one listener each (callback
ids 1 and 2). -/
def stateFooBar : EE :=
  ⟨[("foo", [.obj (.fn 1) false]), ("bar", [.obj (.fn 2) false])], none⟩

/-- State reached from a fresh emitter by addOnceListener of callback 0 on
"a" followed by addListener of a record wrapping callback 0 without the
fire-once flag. -/
def stateOnceDup : EE :=
  getEE (addListener (.str "a") (.obj (.fn 0) false)
    (getEE (addOnceListener (.str "a") (.fn 0) emptyEE)))

/-- State reached from a fresh emitter by addListener of bare callback 0 on
"a" followed by addListener of a record wrapping callback 0 with the
fire-once flag. -/
def stateBareThenWrapped : EE :=
  getEE (addListener (.str "a") (.obj (.fn 0) true)
    (getEE (addListener (.str "a") (.fn 0) emptyEE)))

/-- Callbacks where callback 1 re-entrantly adds callback 2 to event "a";
every callback returns undefined. -/
def envAdder : Env := fun id _ st =>
  (JSArg.undefined, if id == 1 then getEE (addListener (.str "a") (.fn 2) st) else st)

/-- Table holding event "a" with the single listener callback 1. -/
def stateA1 : EE := ⟨[("a", [.obj (.fn 1) false])], none⟩

/-- Table holding event "a" with the single listener callback 3, after the
once return value was set to the number 5. -/
def stateSentinel : EE :=
  setOnceReturnValue (.num 5) ⟨[("a", [.obj (.fn 3) false])], none⟩

/-! Basic facts about strict equality and the record field accessors. -/

lemma jsEq_fn_iff (y : JSArg) (f : Nat) : jsEq y (.fn f) = true ↔ y = .fn f := by
  cases y <;> simp [jsEq]

lemma jsEq_obj_eq_false (y a : JSArg) (b : Bool) : jsEq y (.obj a b) = false := by
  cases y <;> simp [jsEq]

lemma jsEq_fn_self (f : Nat) : jsEq (.fn f) (.fn f) = true := by
  simp [jsEq]

/-! Facts about indexOfListener. -/

lemma indexOf_ge (l : List JSArg) (x : JSArg) : -1 ≤ indexOfListener l x := by
  induction l with
  | nil => simp [indexOfListener]
  | cons r rest ih =>
    simp only [indexOfListener]
    split
    · omega
    · split <;> omega

lemma indexOf_eq_neg1_iff (l : List JSArg) (x : JSArg) :
    indexOfListener l x = -1 ↔ ∀ r ∈ l, jsEq (listenerField r) x = false := by
  induction l with
  | nil => simp [indexOfListener]
  | cons r rest ih =>
    have hge := indexOf_ge rest x
    simp only [indexOfListener, List.mem_cons]
    constructor
    · intro h q hq
      by_cases hr : indexOfListener rest x = -1
      · simp only [hr, ne_eq, not_true_eq_false, if_false, ite_eq_right_iff] at h
        rcases hq with hq | hq
        · subst hq
          by_cases hj : jsEq (listenerField q) x = true
          · simp [hj] at h
          · simpa using hj
        · exact (ih.mp hr) q hq
      · simp only [ne_eq, hr, not_false_eq_true, if_true] at h
        omega
    · intro h
      have hrest : indexOfListener rest x = -1 := ih.mpr fun q hq => h q (Or.inr hq)
      simp [hrest, h r (Or.inl rfl)]

/-! Facts about removeLastMatching. -/

lemma rlm_no_match (l : List JSArg) (x : JSArg)
    (h : ∀ r ∈ l, jsEq (listenerField r) x = false) : removeLastMatching l x = l := by
  induction l with
  | nil => rfl
  | cons r rest ih =>
    have hany : (rest.any fun q => jsEq (listenerField q) x) = false := by
      simp only [List.any_eq_false]
      intro q hq
      simp [h q (List.mem_cons_of_mem r hq)]
    simp [removeLastMatching, hany, h r (List.mem_cons_self r rest), ih fun q hq => h q (List.mem_cons_of_mem r hq)]

lemma countP_rlm_disjoint (l : List JSArg) (x : JSArg) (P : JSArg → Bool)
    (h : ∀ r, jsEq (listenerField r) x = true → P r = false) :
    (removeLastMatching l x).countP P = l.countP P := by
  induction l with
  | nil => rfl
  | cons r rest ih =>
    simp only [removeLastMatching]
    split
    · simp [List.countP_cons, ih]
    · split
      · next hmatch =>
        have : P r = false := h r hmatch
        simp [List.countP_cons, this]
      · rfl

lemma countP_rlm_match (l : List JSArg) (x : JSArg)
    (h : (l.any fun r => jsEq (listenerField r) x) = true) :
    (removeLastMatching l x).countP (fun r => jsEq (listenerField r) x) + 1 =
      l.countP (fun r => jsEq (listenerField r) x) := by
  induction l with
  | nil => simp at h
  | cons r rest ih =>
    simp only [removeLastMatching]
    by_cases hrest : (rest.any fun q => jsEq (listenerField q) x) = true
    · simp only [hrest, if_true, List.countP_cons]
      have := ih hrest
      omega
    · have hr : jsEq (listenerField r) x = true := by
        simp only [List.any_cons, Bool.or_eq_true] at h
        tauto
      simp only [Bool.not_eq_true] at hrest
      simp [hrest, hr, List.countP_cons]

lemma countP_eq_zero_of_all_false (l : List JSArg) (P : JSArg → Bool)
    (h : ∀ r ∈ l, P r = false) : l.countP P = 0 := by
  induction l with
  | nil => rfl
  | cons r rest ih =>
    simp [List.countP_cons, h r (List.mem_cons_self r rest), ih fun q hq => h q (List.mem_cons_of_mem r hq)]

lemma all_false_of_countP_eq_zero (l : List JSArg) (P : JSArg → Bool)
    (h : l.countP P = 0) : ∀ r ∈ l, P r = false := by
  induction l with
  | nil => simp
  | cons r rest ih =>
    simp only [List.countP_cons] at h
    intro q hq
    rcases List.mem_cons.mp hq with hq | hq
    · subst hq
      by_cases hP : P q = true
      · simp [hP] at h
      · simpa using hP
    · exact ih (by omega) q hq

lemma countOnceF_le_countF (f : Nat) (l : List JSArg) : countOnceF f l ≤ countF f l := by
  refine List.countP_mono_left fun r _ h => ?_
  exact (Bool.and_eq_true _ _).mp h |>.1

/-! Facts about the state accessors. -/

lemma lookup_touch (kq k : String) (s : EE) :
    lookupList kq (touchKey k s) = lookupList kq s := by
  unfold touchKey lookupList
  split
  · rfl
  · next habs =>
    rw [List.find?_append]
    cases hfind : s.events.find? fun kv => kv.1 == kq with
    | some kv => simp
    | none =>
      by_cases hk : (k == kq) = true
      · have : s.events.find? (fun kv => kv.1 == k) = none := by
          have hkk : k = kq := by simpa using hk
          rw [hkk]; exact hfind
        simp [this, List.find?, hk]
      · simp only [Bool.not_eq_true] at hk
        simp [List.find?, hk]

lemma touch_mem (k : String) (s : EE) :
    ((touchKey k s).events.find? fun kv => kv.1 == k).isSome = true := by
  unfold touchKey
  split
  · assumption
  · next habs =>
    rw [List.find?_append]
    have hnone : s.events.find? (fun kv => kv.1 == k) = none := by
      cases h : s.events.find? fun kv => kv.1 == k
      · rfl
      · rw [h] at habs; simp at habs
    simp [hnone, List.find?]

lemma find?_update_self (k : String) (g : List JSArg → List JSArg)
    (l : List (String × List JSArg)) :
    ((l.map fun kv => if kv.1 == k then (kv.1, g kv.2) else kv).find? fun kv => kv.1 == k) =
      (l.find? fun kv => kv.1 == k).map fun kv => (kv.1, g kv.2) := by
  rw [List.find?_map]
  have hcomp : ((fun kv => kv.1 == k) ∘ fun kv : String × List JSArg =>
      if kv.1 == k then (kv.1, g kv.2) else kv) = fun kv => kv.1 == k := by
    funext kv
    by_cases h : kv.1 = k <;> simp [h]
  rw [hcomp]
  cases hfind : l.find? fun kv => kv.1 == k with
  | none => rfl
  | some kv =>
    have heq : kv.1 = k := by simpa using List.find?_some hfind
    simp [heq]

lemma find?_update_ne (kq k : String) (g : List JSArg → List JSArg) (hne : kq ≠ k)
    (l : List (String × List JSArg)) :
    ((l.map fun kv => if kv.1 == k then (kv.1, g kv.2) else kv).find? fun kv => kv.1 == kq) =
      l.find? fun kv => kv.1 == kq := by
  rw [List.find?_map]
  have hcomp : ((fun kv => kv.1 == kq) ∘ fun kv : String × List JSArg =>
      if kv.1 == k then (kv.1, g kv.2) else kv) = fun kv => kv.1 == kq := by
    funext kv
    by_cases h : kv.1 = k <;> simp [h]
  rw [hcomp]
  cases hfind : l.find? fun kv => kv.1 == kq with
  | none => rfl
  | some kv =>
    have hkv : kv.1 = kq := by simpa using List.find?_some hfind
    have hfalse : kv.1 ≠ k := by rw [hkv]; exact hne
    simp [hfalse]

lemma lookup_update_self (k : String) (g : List JSArg → List JSArg) (s : EE)
    (h : (s.events.find? fun kv => kv.1 == k).isSome = true) :
    lookupList k (updateList k g s) = g (lookupList k s) := by
  unfold lookupList updateList
  simp only [find?_update_self]
  cases hfind : s.events.find? fun kv => kv.1 == k with
  | none => rw [hfind] at h; simp at h
  | some kv => simp

lemma lookup_update_ne (kq k : String) (g : List JSArg → List JSArg) (s : EE)
    (hne : kq ≠ k) :
    lookupList kq (updateList k g s) = lookupList kq s := by
  unfold lookupList updateList
  rw [find?_update_ne kq k g hne]

lemma lookup_update_absent (k : String) (g : List JSArg → List JSArg) (s : EE)
    (h : (s.events.find? fun kv => kv.1 == k) = none) :
    lookupList k (updateList k g s) = lookupList k s := by
  unfold lookupList updateList
  rw [find?_update_self, h]
  rfl

/-! The once return value survives the state operations performed during a
dispatch pass. -/

lemma getOnce_touch (k : String) (s : EE) :
    getOnceReturnValue (touchKey k s) = getOnceReturnValue s := by
  unfold touchKey
  split <;> rfl

lemma getOnce_update (k : String) (g : List JSArg → List JSArg) (s : EE) :
    getOnceReturnValue (updateList k g s) = getOnceReturnValue s := rfl

lemma getOnce_resolve (evt : Evt) (s : EE) :
    getOnceReturnValue (resolveTargets evt s).1 = getOnceReturnValue s := by
  cases evt with
  | str k => exact getOnce_touch k s
  | regex p =>
    unfold resolveTargets
    cases h : (s.events.filter fun kv => p.test kv.1).getLast? <;> simp only [h]

lemma getOnce_fold (x : JSArg) (ts : List String) (s : EE) :
    getOnceReturnValue
      (ts.foldl (fun acc t => updateList t (fun l => removeLastMatching l x) acc) s) =
      getOnceReturnValue s := by
  induction ts generalizing s with
  | nil => rfl
  | cons t rest ih => rw [List.foldl_cons, ih, getOnce_update]

lemma getOnce_removeListener (evt : Evt) (x : JSArg) (s : EE) :
    getOnceReturnValue (removeListener evt x s) = getOnceReturnValue s := by
  unfold removeListener
  rw [getOnce_fold, getOnce_resolve]

/-- Removing by a string key splices the stored array of that key. -/
lemma lookup_rm_self (k : String) (x : JSArg) (s : EE) :
    lookupList k (removeListener (.str k) x s) =
      removeLastMatching (lookupList k s) x := by
  unfold removeListener resolveTargets
  simp only [List.foldl_cons, List.foldl_nil]
  rw [lookup_update_self _ _ _ (touch_mem k s), lookup_touch]

/-- The resolved object always holds at most one property; running the outer
dispatch loop on a one-property object is running the inner loop once. -/
lemma emitMapLoop_single (env : Env) (evt : Evt) (args : List JSArg)
    (k : String) (snap : List JSArg) (s : EE) :
    emitMapLoop env evt args [(k, snap)] s = emitList env evt args snap s := by
  unfold emitMapLoop
  cases hok : (emitList env evt args snap s).2.2 with
  | true =>
    simp only [emitMapLoop, hok, if_true, List.append_nil]
    rw [← hok]
  | false => simp [hok]

/-- Dispatch of a string key is the inner loop over the snapshot of the key
array, starting from the materialised state. -/
lemma emitEvent_str (env : Env) (k : String) (args : List JSArg) (s : EE) :
    emitEvent env (.str k) args s =
      emitList env (.str k) args (lookupList k s) (touchKey k s) := by
  unfold emitEvent getListenersAsObject getListeners
  simp only [evtKeyStr, emitMapLoop_single, lookup_touch]

lemma wfRec_shape (r : JSArg) (h : wfRec r = true) : ∃ g o, r = .obj (.fn g) o := by
  cases r <;> try simp [wfRec] at h
  next l o =>
    cases l <;> try simp [wfRec] at h
    next g => exact ⟨g, o, rfl⟩

/-- Unfolding of one inner-loop step on a well-formed record, with the two
intermediate states named. -/
lemma emitList_cons (env : Env) (evt : Evt) (args : List JSArg)
    (g : Nat) (o : Bool) (rest : List JSArg) (s : EE) :
    emitList env evt args (.obj (.fn g) o :: rest) s =
      ((emitList env evt args rest (stepAfter env evt args g (stepOnce evt g o s))).1,
       (g, stepOnce evt g o s) ::
         (emitList env evt args rest (stepAfter env evt args g (stepOnce evt g o s))).2.1,
       (emitList env evt args rest (stepAfter env evt args g (stepOnce evt g o s))).2.2) :=
  rfl

lemma traceIds_cons (g : Nat) (s : EE) (tr : List (Nat × EE)) :
    traceIds ((g, s) :: tr) = g :: traceIds tr := rfl

lemma cbIds_cons_fn (g : Nat) (o : Bool) (rest : List JSArg) :
    cbIds (.obj (.fn g) o :: rest) = g :: cbIds rest := rfl

lemma countF_cons_fn (f g : Nat) (o : Bool) (rest : List JSArg) :
    countF f (.obj (.fn g) o :: rest) =
      countF f rest + if (g == f) = true then 1 else 0 := by
  rw [countF, List.countP_cons, ← countF]
  rfl

lemma countOnceF_cons_fn (f g : Nat) (o : Bool) (rest : List JSArg) :
    countOnceF f (.obj (.fn g) o :: rest) =
      countOnceF f rest + if ((g == f) && o) = true then 1 else 0 := by
  rw [countOnceF, List.countP_cons, ← countOnceF]
  rfl

/-- A dispatch pass over a snapshot of well-formed records completes (no
thrown apply) and invokes exactly the underlying callbacks of the snapshot
records, in snapshot order, whatever the callbacks do to the registry. -/
lemma emitList_wf (env : Env) (evt : Evt) (args : List JSArg) :
    ∀ (snap : List JSArg) (s : EE), wfList snap = true →
    (emitList env evt args snap s).2.2 = true ∧
    traceIds (emitList env evt args snap s).2.1 = cbIds snap := by
  intro snap
  induction snap with
  | nil => exact fun s _ => ⟨rfl, rfl⟩
  | cons r rest ih =>
    intro s hwf
    rw [wfList, List.all_cons, Bool.and_eq_true] at hwf
    obtain ⟨g, o, rfl⟩ := wfRec_shape r hwf.1
    rw [emitList_cons]
    refine ⟨(ih _ hwf.2).1, ?_⟩
    rw [cbIds_cons_fn, traceIds_cons, (ih _ hwf.2).2]

/-- For well-formed records the multiset of invoked ids is the multiset of
underlying callback ids. -/
lemma count_cbIds (f : Nat) :
    ∀ l : List JSArg, wfList l = true → (cbIds l).count f = countF f l := by
  intro l
  induction l with
  | nil => intro _; rfl
  | cons r rest ih =>
    intro hwf
    rw [wfList, List.all_cons, Bool.and_eq_true] at hwf
    obtain ⟨g, o, rfl⟩ := wfRec_shape r hwf.1
    rw [cbIds_cons_fn, countF_cons_fn, List.count_cons, ih hwf.2]

/-! Count-tracking helpers for dispatch with pure callbacks. -/

lemma countF_rlm_other (f g : Nat) (hne : (g == f) = false) (l : List JSArg) :
    countF f (removeLastMatching l (.fn g)) = countF f l := by
  refine countP_rlm_disjoint l (.fn g) _ fun r hm => ?_
  rw [jsEq_fn_iff] at hm
  rw [hm]
  simpa [jsEq] using hne

lemma countF_rm_other (k : String) (f g : Nat) (hne : (g == f) = false) (s : EE) :
    countF f (lookupList k (removeListener (.str k) (.fn g) s)) =
      countF f (lookupList k s) := by
  rw [lookup_rm_self]
  exact countF_rlm_other f g hne (lookupList k s)

lemma countF_rm_self_one (k : String) (f : Nat) (s : EE)
    (h : countF f (lookupList k s) = 1) :
    countF f (lookupList k (removeListener (.str k) (.fn f) s)) = 0 := by
  rw [lookup_rm_self]
  have hany : ((lookupList k s).any fun r => jsEq (listenerField r) (.fn f)) = true := by
    rw [List.any_eq_true]
    have hpos : 0 < (lookupList k s).countP fun r => jsEq (listenerField r) (.fn f) := by
      rw [← countF] at *
      omega
    obtain ⟨a, ha, hpa⟩ := List.countP_pos_iff.mp hpos
    exact ⟨a, ha, hpa⟩
  have := countP_rlm_match (lookupList k s) (.fn f) hany
  rw [countF] at h ⊢
  omega

lemma countF_rm_self_zero (k : String) (f : Nat) (s : EE)
    (h : countF f (lookupList k s) = 0) :
    countF f (lookupList k (removeListener (.str k) (.fn f) s)) = 0 := by
  rw [lookup_rm_self, rlm_no_match]
  · exact h
  · intro r hr
    have := List.countP_eq_zero.mp h r hr
    simpa using this

/-- stepAfter under pure callbacks: the once-return-value comparison against
the value returned for `g`, followed by the conditional removal. -/
lemma stepAfter_pure (ret : Nat → JSArg) (evt : Evt) (args : List JSArg)
    (g : Nat) (s : EE) :
    stepAfter (pureEnv ret) evt args g s =
      if jsEq (ret g) (getOnceReturnValue s) = true
      then removeListener evt (.fn g) s else s := rfl

/-- Dispatching a snapshot of well-formed records none of which wraps
callback `f`, with pure callbacks, preserves the stored count of `f` at the
dispatched key, preserves the once return value, and never invokes `f`. -/
lemma emitList_pure_ffree (k : String) (f : Nat) (ret : Nat → JSArg)
    (args : List JSArg) :
    ∀ (snap : List JSArg) (s : EE), wfList snap = true → countF f snap = 0 →
    countF f (lookupList k ((emitList (pureEnv ret) (.str k) args snap s).1)) =
      countF f (lookupList k s) ∧
    getOnceReturnValue (emitList (pureEnv ret) (.str k) args snap s).1 =
      getOnceReturnValue s ∧
    ∀ p ∈ (emitList (pureEnv ret) (.str k) args snap s).2.1, p.1 ≠ f := by
  intro snap
  induction snap with
  | nil =>
    intro s _ _
    refine ⟨rfl, rfl, ?_⟩
    intro p hp
    simp [emitList] at hp
  | cons r rest ih =>
    intro s hwf hcnt
    rw [wfList, List.all_cons, Bool.and_eq_true] at hwf
    obtain ⟨g, o, rfl⟩ := wfRec_shape r hwf.1
    rw [countF_cons_fn] at hcnt
    have hgf : (g == f) = false := by
      by_cases hb : (g == f) = true
      · rw [hb] at hcnt; simp at hcnt
      · simpa using hb
    rw [hgf] at hcnt
    simp only [Bool.false_eq_true, if_false, Nat.add_zero] at hcnt
    have h1 : countF f (lookupList k (stepOnce (.str k) g o s)) =
        countF f (lookupList k s) := by
      unfold stepOnce
      split
      · exact countF_rm_other k f g hgf s
      · rfl
    have h1o : getOnceReturnValue (stepOnce (.str k) g o s) = getOnceReturnValue s := by
      unfold stepOnce
      split
      · exact getOnce_removeListener _ _ _
      · rfl
    have h2 : countF f (lookupList k
        (stepAfter (pureEnv ret) (.str k) args g (stepOnce (.str k) g o s))) =
        countF f (lookupList k s) := by
      rw [stepAfter_pure]
      split
      · rw [countF_rm_other k f g hgf, h1]
      · exact h1
    have h2o : getOnceReturnValue
        (stepAfter (pureEnv ret) (.str k) args g (stepOnce (.str k) g o s)) =
        getOnceReturnValue s := by
      rw [stepAfter_pure]
      split
      · rw [getOnce_removeListener, h1o]
      · exact h1o
    obtain ⟨ih1, ih2, ih3⟩ :=
      ih (stepAfter (pureEnv ret) (.str k) args g (stepOnce (.str k) g o s)) hwf.2 hcnt
    rw [emitList_cons]
    refine ⟨by rw [ih1, h2], by rw [ih2, h2o], ?_⟩
    intro p hp
    rcases List.mem_cons.mp hp with hp | hp
    · rw [hp]
      simpa using hgf
    · exact ih3 p hp

/-- Dispatching a snapshot of well-formed records with pure callbacks, where
exactly one record wraps callback `f` and that record is fire-once, and the
live list holds `f` in exactly one record: the record is gone from the live
list at the moment `f` is invoked, and it is still gone when the pass ends,
whatever the callbacks returned. -/
lemma emitList_pure_once_removed (k : String) (f : Nat) (ret : Nat → JSArg)
    (args : List JSArg) :
    ∀ (snap : List JSArg) (s : EE), wfList snap = true →
    countF f snap = 1 → countOnceF f snap = 1 →
    countF f (lookupList k s) = 1 →
    countF f (lookupList k ((emitList (pureEnv ret) (.str k) args snap s).1)) = 0 ∧
    ∀ p ∈ (emitList (pureEnv ret) (.str k) args snap s).2.1, p.1 = f →
      countF f (lookupList k p.2) = 0 := by
  intro snap
  induction snap with
  | nil =>
    intro s _ hc _ _
    rw [countF] at hc
    simp at hc
  | cons r rest ih =>
    intro s hwf hc ho hlive
    rw [wfList, List.all_cons, Bool.and_eq_true] at hwf
    obtain ⟨g, o, rfl⟩ := wfRec_shape r hwf.1
    rw [countF_cons_fn] at hc
    rw [countOnceF_cons_fn] at ho
    by_cases hgf : (g == f) = true
    · -- the head is the unique record wrapping f
      have hgf2 : f = g := by
        have hswap : g = f := by simpa using hgf
        exact hswap.symm
      subst hgf2
      rw [hgf] at hc ho
      simp only [if_true, Bool.true_and] at hc ho
      have hrest : countF f rest = 0 := by omega
      have honce : o = true := by
        cases o with
        | true => rfl
        | false =>
          simp only [Bool.false_eq_true, if_false, Nat.add_zero] at ho
          have := countOnceF_le_countF f rest
          omega
      subst honce
      have hs1 : stepOnce (.str k) f true s = removeListener (.str k) (.fn f) s := rfl
      have hc1 : countF f (lookupList k (stepOnce (.str k) f true s)) = 0 := by
        rw [hs1]
        exact countF_rm_self_one k f s hlive
      have hc2 : countF f (lookupList k
          (stepAfter (pureEnv ret) (.str k) args f (stepOnce (.str k) f true s))) = 0 := by
        rw [stepAfter_pure]
        split
        · exact countF_rm_self_zero k f _ hc1
        · exact hc1
      obtain ⟨ha1, _, ha3⟩ := emitList_pure_ffree k f ret args rest
        (stepAfter (pureEnv ret) (.str k) args f (stepOnce (.str k) f true s)) hwf.2 hrest
      rw [emitList_cons]
      refine ⟨by rw [ha1, hc2], ?_⟩
      intro p hp hpf
      rcases List.mem_cons.mp hp with hp | hp
      · rw [hp]
        exact hc1
      · exact absurd hpf (ha3 p hp)
    · -- the head wraps some other callback
      have hgfF : (g == f) = false := by simpa using hgf
      rw [hgfF] at hc ho
      simp only [Bool.false_eq_true, Bool.false_and, if_false, Nat.add_zero] at hc ho
      have h1 : countF f (lookupList k (stepOnce (.str k) g o s)) =
          countF f (lookupList k s) := by
        unfold stepOnce
        split
        · exact countF_rm_other k f g hgfF s
        · rfl
      have h2 : countF f (lookupList k
          (stepAfter (pureEnv ret) (.str k) args g (stepOnce (.str k) g o s))) =
          countF f (lookupList k s) := by
        rw [stepAfter_pure]
        split
        · rw [countF_rm_other k f g hgfF, h1]
        · exact h1
      obtain ⟨ih1, ih2⟩ :=
        ih (stepAfter (pureEnv ret) (.str k) args g (stepOnce (.str k) g o s)) hwf.2 hc ho
          (by rw [h2]; exact hlive)
      rw [emitList_cons]
      refine ⟨by rw [ih1], ?_⟩
      intro p hp hpf
      rcases List.mem_cons.mp hp with hp | hp
      · rw [hp] at hpf
        simp only at hpf
        rw [hpf] at hgfF
        simp at hgfF
      · exact ih2 p hp hpf

/-- Dispatching a snapshot of well-formed records with pure callbacks, where
exactly one record wraps callback `f`, that record is not fire-once, and the
live list holds `f` in exactly one record: the record is still in the live
list at the moment `f` is invoked, and after the pass it is gone exactly
when the value `f` returned strict-equals the once return value. -/
lemma emitList_pure_keep (k : String) (f : Nat) (ret : Nat → JSArg)
    (args : List JSArg) :
    ∀ (snap : List JSArg) (s : EE), wfList snap = true →
    countF f snap = 1 → countOnceF f snap = 0 →
    countF f (lookupList k s) = 1 →
    (∀ p ∈ (emitList (pureEnv ret) (.str k) args snap s).2.1, p.1 = f →
      countF f (lookupList k p.2) = 1) ∧
    countF f (lookupList k ((emitList (pureEnv ret) (.str k) args snap s).1)) =
      (if jsEq (ret f) (getOnceReturnValue s) = true then 0 else 1) := by
  intro snap
  induction snap with
  | nil =>
    intro s _ hc _ _
    rw [countF] at hc
    simp at hc
  | cons r rest ih =>
    intro s hwf hc ho hlive
    rw [wfList, List.all_cons, Bool.and_eq_true] at hwf
    obtain ⟨g, o, rfl⟩ := wfRec_shape r hwf.1
    rw [countF_cons_fn] at hc
    rw [countOnceF_cons_fn] at ho
    by_cases hgf : (g == f) = true
    · -- the head is the unique record wrapping f, and it is not fire-once
      have hgf2 : f = g := by
        have hswap : g = f := by simpa using hgf
        exact hswap.symm
      subst hgf2
      rw [hgf] at hc ho
      simp only [if_true, Bool.true_and] at hc ho
      have hrest : countF f rest = 0 := by omega
      have honce : o = false := by
        cases o with
        | false => rfl
        | true => simp at ho
      subst honce
      have hs1 : stepOnce (.str k) f false s = s := rfl
      rw [emitList_cons, hs1]
      by_cases hsent : jsEq (ret f) (getOnceReturnValue s) = true
      · have hs2 : stepAfter (pureEnv ret) (.str k) args f s =
            removeListener (.str k) (.fn f) s := by
          rw [stepAfter_pure, if_pos hsent]
        have hc2 : countF f (lookupList k (stepAfter (pureEnv ret) (.str k) args f s)) = 0 := by
          rw [hs2]
          exact countF_rm_self_one k f s hlive
        obtain ⟨ha1, _, ha3⟩ := emitList_pure_ffree k f ret args rest
          (stepAfter (pureEnv ret) (.str k) args f s) hwf.2 hrest
        refine ⟨?_, by rw [ha1, hc2, if_pos hsent]⟩
        intro p hp hpf
        rcases List.mem_cons.mp hp with hp | hp
        · rw [hp]
          exact hlive
        · exact absurd hpf (ha3 p hp)
      · have hs2 : stepAfter (pureEnv ret) (.str k) args f s = s := by
          rw [stepAfter_pure, if_neg hsent]
        obtain ⟨ha1, _, ha3⟩ := emitList_pure_ffree k f ret args rest
          (stepAfter (pureEnv ret) (.str k) args f s) hwf.2 hrest
        refine ⟨?_, by rw [ha1, hs2, hlive, if_neg hsent]⟩
        intro p hp hpf
        rcases List.mem_cons.mp hp with hp | hp
        · rw [hp]
          exact hlive
        · exact absurd hpf (ha3 p hp)
    · -- the head wraps some other callback
      have hgfF : (g == f) = false := by simpa using hgf
      rw [hgfF] at hc ho
      simp only [Bool.false_eq_true, Bool.false_and, if_false, Nat.add_zero] at hc ho
      have h1 : countF f (lookupList k (stepOnce (.str k) g o s)) =
          countF f (lookupList k s) := by
        unfold stepOnce
        split
        · exact countF_rm_other k f g hgfF s
        · rfl
      have h1o : getOnceReturnValue (stepOnce (.str k) g o s) = getOnceReturnValue s := by
        unfold stepOnce
        split
        · exact getOnce_removeListener _ _ _
        · rfl
      have h2 : countF f (lookupList k
          (stepAfter (pureEnv ret) (.str k) args g (stepOnce (.str k) g o s))) =
          countF f (lookupList k s) := by
        rw [stepAfter_pure]
        split
        · rw [countF_rm_other k f g hgfF, h1]
        · exact h1
      have h2o : getOnceReturnValue
          (stepAfter (pureEnv ret) (.str k) args g (stepOnce (.str k) g o s)) =
          getOnceReturnValue s := by
        rw [stepAfter_pure]
        split
        · rw [getOnce_removeListener, h1o]
        · exact h1o
      obtain ⟨ih1, ih2⟩ :=
        ih (stepAfter (pureEnv ret) (.str k) args g (stepOnce (.str k) g o s)) hwf.2 hc ho
          (by rw [h2]; exact hlive)
      rw [emitList_cons]
      constructor
      · intro p hp hpf
        rcases List.mem_cons.mp hp with hp | hp
        · rw [hp] at hpf
          simp only at hpf
          rw [hpf] at hgfF
          simp at hgfF
        · exact ih1 p hp hpf
      · rw [ih2, h2o]

/-! The add path on a string key. -/

lemma addListener_str (k : String) (l : JSArg) (s : EE)
    (h : isValidListener l = true) :
    addListener (.str k) l s =
      .ok (if indexOfListener (lookupList k s) l = -1
           then updateList k (fun cur => cur ++ [wrapListener l]) (touchKey k s)
           else touchKey k s) := by
  unfold addListener resolveTargets
  rw [if_pos h]
  simp only [List.foldl_cons, List.foldl_nil]
  rw [lookup_touch]

lemma lookup_add_str (k : String) (l : JSArg) (s : EE)
    (h : isValidListener l = true) :
    lookupList k (getEE (addListener (.str k) l s)) =
      if indexOfListener (lookupList k s) l = -1
      then lookupList k s ++ [wrapListener l] else lookupList k s := by
  rw [addListener_str k l s h]
  show lookupList k (if _ then _ else _) = _
  split
  · rw [lookup_update_self _ _ _ (touch_mem k s), lookup_touch]
  · rw [lookup_touch]

/-- A freshly constructed record object is strict-equal to no stored
underlying callback, so indexOfListener never finds it. -/
lemma indexOf_obj (l : List JSArg) (a : JSArg) (b : Bool) :
    indexOfListener l (.obj a b) = -1 := by
  rw [indexOf_eq_neg1_iff]
  intro r _
  exact jsEq_obj_eq_false (listenerField r) a b

/-! The bulk-manipulation loops as monadic folds. -/

lemma applyEachLeft_cons (remove : Bool) (e : Evt) (l : JSArg)
    (rest : List JSArg) (s : EE) :
    applyEachLeft remove e (l :: rest) s =
      (runSingle remove e l s).bind (applyEachLeft remove e rest) := by
  cases hrs : runSingle remove e l s <;> simp [applyEachLeft, hrs, Except.bind]

lemma manipulateKeyLoop_cons (remove : Bool) (e : Evt) (l : JSArg)
    (rest : List JSArg) (s : EE) :
    manipulateKeyLoop remove e (l :: rest) s =
      (manipulateKeyLoop remove e rest s).bind (runSingle remove e l) := by
  cases h : manipulateKeyLoop remove e rest s <;> simp [manipulateKeyLoop, h, Except.bind]

lemma applyEachLeft_append (remove : Bool) (e : Evt) (xs ys : List JSArg) :
    ∀ s : EE, applyEachLeft remove e (xs ++ ys) s =
      (applyEachLeft remove e xs s).bind (applyEachLeft remove e ys) := by
  induction xs with
  | nil => intro s; rfl
  | cons x rest ih =>
    intro s
    rw [List.cons_append, applyEachLeft_cons, applyEachLeft_cons]
    cases hrs : runSingle remove e x s <;> simp [Except.bind, ih]

lemma applyEachLeft_single (remove : Bool) (e : Evt) (l : JSArg) (s : EE) :
    applyEachLeft remove e [l] s = runSingle remove e l s := by
  cases h : runSingle remove e l s <;> simp [applyEachLeft, h]

/-- A key occurring in the filtered table occurs in the table. -/
lemma find?_isSome_of_getLast?_filter (p : Pat) (s : EE)
    (kv : String × List JSArg)
    (h : (s.events.filter fun q => p.test q.1).getLast? = some kv) :
    (s.events.find? fun q => q.1 == kv.1).isSome = true := by
  have hmem : kv ∈ s.events.filter fun q => p.test q.1 :=
    List.mem_of_getLast?_eq_some h
  have hmem2 : kv ∈ s.events := (List.mem_filter.mp hmem).1
  simp only [List.find?_isSome]
  exact ⟨kv, hmem2, by simp⟩

/-! Claim theorems. -/

/-- C1: evaluation of the code at the failing input. With events "foo" and
"bar" holding one listener each (callbacks 1 and 2) and a regexp matching
both keys, emit completes but invokes only callback 2, the listener of the
last matching key, once: getListeners writes every match to the single
response property named by the regexp coerced to a string, so the earlier
match "foo" is overwritten and the trace claimed by the specification
(both listeners, in table key order) does not occur. -/
theorem emit_pattern_fires_only_last_match :
    traceIds (emit (pureEnv fun _ => .undefined) (.regex patFooBar) [] stateFooBar).2.1
      = [2] ∧
    (emit (pureEnv fun _ => .undefined) (.regex patFooBar) [] stateFooBar).2.2 = true := by
  constructor <;> decide

/-- C2: evaluation of the code at the failing input. With events "foo" and
"bar" present, getListeners on a regexp matching both returns an object
whose only property is the regexp coerced to a string, not the two matched
keys the specification claims. -/
theorem getListeners_pattern_keyed_by_regex_string :
    glKeys (getListeners (.regex patFooBar) stateFooBar).2 = ["/^(foo|bar)$/"] ∧
    ("foo" : String) ∉ glKeys (getListeners (.regex patFooBar) stateFooBar).2 ∧
    ("bar" : String) ∉ glKeys (getListeners (.regex patFooBar) stateFooBar).2 := by
  refine ⟨?_, ?_, ?_⟩ <;> decide

/-- C3 counterexample: from the API-reachable state addOnceListener of
callback 0 on "a" followed by addListener of a record wrapping callback 0
without the flag, dispatching "a" completes, yet the fire-once record is
still stored afterwards: the pre-invocation removal splices the last record
with the same underlying callback, which is the non-once record, so the
fire-once record survives the whole dispatch, refuting the claim as stated
for every registered fire-once listener. -/
theorem fireOnce_record_survives_dispatch :
    countOnceF 0 (lookupList "a" stateOnceDup) = 1 ∧
    (emitEvent (pureEnv fun _ => .undefined) (.str "a") [] stateOnceDup).2.2 = true ∧
    countOnceF 0 (lookupList "a"
      (emitEvent (pureEnv fun _ => .undefined) (.str "a") [] stateOnceDup).1) = 1 := by
  refine ⟨?_, ?_, ?_⟩ <;> decide

/-- C3 (amended): for every event key and fire-once listener on it whose
underlying callback occurs in exactly one record of the key list, with all
stored records wrapping plain functions and callbacks performing no
re-entrant registry operations, the record is gone from the live list at
the moment its callback is invoked during dispatch, and after the dispatch
completes it is absent, whatever the callbacks returned. -/
theorem fireOnce_removed_before_invocation
    (k : String) (f : Nat) (ret : Nat → JSArg) (args : List JSArg) (s : EE)
    (hwf : wfList (lookupList k s) = true)
    (hc : countF f (lookupList k s) = 1)
    (ho : countOnceF f (lookupList k s) = 1) :
    (∀ p ∈ (emitEvent (pureEnv ret) (.str k) args s).2.1, p.1 = f →
      countF f (lookupList k p.2) = 0) ∧
    countF f (lookupList k (emitEvent (pureEnv ret) (.str k) args s).1) = 0 := by
  have hl := emitList_pure_once_removed k f ret args (lookupList k s) (touchKey k s)
    hwf hc ho (by rw [lookup_touch]; exact hc)
  rw [emitEvent_str]
  exact ⟨hl.2, hl.1⟩

theorem fireOnce_removed_before_invocation_check :
    (∀ p ∈ (emitEvent (pureEnv fun _ => JSArg.bool true) (.str "a") []
        (⟨[("a", [.obj (.fn 7) true])], none⟩ : EE)).2.1, p.1 = 7 →
      countF 7 (lookupList "a" p.2) = 0) ∧
    countF 7 (lookupList "a"
      (emitEvent (pureEnv fun _ => JSArg.bool true) (.str "a") []
        (⟨[("a", [.obj (.fn 7) true])], none⟩ : EE)).1) = 0 :=
  fireOnce_removed_before_invocation "a" 7 (fun _ => JSArg.bool true) []
    ⟨[("a", [.obj (.fn 7) true])], none⟩ (by decide) (by decide) (by decide)

/-- C4: dispatch of a string key invokes exactly the callbacks stored for
the key at pass start, whatever the callbacks do to the registry; hence a
listener adding a listener for the same key during the pass never gets the
new callback invoked in that pass, and once the new record is stored, the
next dispatch of the key invokes it. -/
theorem emit_snapshot_isolation
    (env : Env) (k : String) (b : Nat) (args : List JSArg) (s : EE)
    (hwf : wfList (lookupList k s) = true)
    (hb : b ∉ cbIds (lookupList k s)) :
    b ∉ traceIds (emitEvent env (.str k) args s).2.1 ∧
    ∀ s1 : EE, wfList (lookupList k s1) = true → b ∈ cbIds (lookupList k s1) →
      b ∈ traceIds (emitEvent env (.str k) args s1).2.1 := by
  constructor
  · rw [emitEvent_str,
      (emitList_wf env (.str k) args (lookupList k s) (touchKey k s) hwf).2]
    exact hb
  · intro s1 hwf1 hb1
    rw [emitEvent_str,
      (emitList_wf env (.str k) args (lookupList k s1) (touchKey k s1) hwf1).2]
    exact hb1

theorem emit_snapshot_isolation_check :
    (2 ∉ traceIds (emitEvent envAdder (.str "a") [] stateA1).2.1) ∧
    2 ∈ traceIds (emitEvent envAdder (.str "a") []
      (emitEvent envAdder (.str "a") [] stateA1).1).2.1 :=
  ⟨(emit_snapshot_isolation envAdder "a" 2 [] stateA1 (by decide) (by decide)).1,
   (emit_snapshot_isolation envAdder "a" 2 [] stateA1 (by decide) (by decide)).2
     (emitEvent envAdder (.str "a") [] stateA1).1 (by decide) (by decide)⟩

/-- C5 counterexample: addListener of bare callback 0 on "a" followed by
addListener of a record wrapping callback 0 stores two records with
underlying callback 0 in the one key list, refuting the claimed invariant
that no two records of a key list share an underlying callback: the
duplicate check compares stored underlying callbacks against the argument
as passed, and a wrapper record is not strict-equal to the stored
callback. -/
theorem addListener_wrapped_duplicates_callback :
    countF 0 (lookupList "a" stateBareThenWrapped) = 2 := by decide

/-- C5 (amended): adding the same bare callback twice to the same key
stores exactly one record for it, the second call finding the stored
record; the no-shared-callback invariant however only holds against the
argument as passed, so wrapper-record additions can still duplicate an
underlying callback. -/
theorem addListener_bare_callback_no_duplicate
    (k : String) (f : Nat) (s : EE)
    (h : countF f (lookupList k s) = 0) :
    countF f (lookupList k (getEE (addListener (.str k) (.fn f) s))) = 1 ∧
    countF f (lookupList k (getEE (addListener (.str k) (.fn f)
      (getEE (addListener (.str k) (.fn f) s))))) = 1 := by
  have hvalid : isValidListener (.fn f) = true := rfl
  have hidx1 : indexOfListener (lookupList k s) (.fn f) = -1 := by
    rw [indexOf_eq_neg1_iff]
    intro r hr
    have := List.countP_eq_zero.mp h r hr
    simpa using this
  have h1 : lookupList k (getEE (addListener (.str k) (.fn f) s)) =
      lookupList k s ++ [.obj (.fn f) false] := by
    rw [lookup_add_str k (.fn f) s hvalid, if_pos hidx1]
    rfl
  have hc1 : countF f (lookupList k (getEE (addListener (.str k) (.fn f) s))) = 1 := by
    rw [h1, countF, List.countP_append, ← countF, h]
    simp [countF, List.countP_cons, listenerField, jsEq]
  have hidx2 : ¬ indexOfListener
      (lookupList k (getEE (addListener (.str k) (.fn f) s))) (.fn f) = -1 := by
    intro hcontra
    have hall := (indexOf_eq_neg1_iff _ _).mp hcontra
    have hzero : countF f (lookupList k (getEE (addListener (.str k) (.fn f) s))) = 0 := by
      rw [countF]
      rw [List.countP_eq_zero]
      intro a ha
      simp [hall a ha]
    omega
  have h2 : lookupList k (getEE (addListener (.str k) (.fn f)
      (getEE (addListener (.str k) (.fn f) s)))) =
      lookupList k (getEE (addListener (.str k) (.fn f) s)) := by
    rw [lookup_add_str k (.fn f) _ hvalid, if_neg hidx2]
  exact ⟨hc1, by rw [h2]; exact hc1⟩

theorem addListener_bare_callback_no_duplicate_check :
    countF 5 (lookupList "b" (getEE (addListener (.str "b") (.fn 5) emptyEE))) = 1 ∧
    countF 5 (lookupList "b" (getEE (addListener (.str "b") (.fn 5)
      (getEE (addListener (.str "b") (.fn 5) emptyEE))))) = 1 :=
  addListener_bare_callback_no_duplicate "b" 5 emptyEE (by decide)

/-- C6: the once return value reads as boolean true when never set; a
listener stored without the fire-once flag whose callback occurs in exactly
one record of the key list (all records wrapping plain functions, callbacks
performing no re-entrant registry operations) is invoked exactly once per
dispatch, is still stored at the moment it is invoked, and after the
dispatch is gone exactly when the value it returned strict-equals the
current once return value; any other returned value leaves it stored. -/
theorem onceReturnValue_default_and_sentinel_removal :
    (∀ ev : List (String × List JSArg), getOnceReturnValue ⟨ev, none⟩ = .bool true) ∧
    ∀ (k : String) (f : Nat) (ret : Nat → JSArg) (args : List JSArg) (s : EE),
      wfList (lookupList k s) = true →
      countF f (lookupList k s) = 1 →
      countOnceF f (lookupList k s) = 0 →
      (traceIds (emitEvent (pureEnv ret) (.str k) args s).2.1).count f = 1 ∧
      (∀ p ∈ (emitEvent (pureEnv ret) (.str k) args s).2.1, p.1 = f →
        countF f (lookupList k p.2) = 1) ∧
      countF f (lookupList k (emitEvent (pureEnv ret) (.str k) args s).1) =
        (if jsEq (ret f) (getOnceReturnValue s) = true then 0 else 1) := by
  refine ⟨fun ev => rfl, ?_⟩
  intro k f ret args s hwf hc ho
  have hl := emitList_pure_keep k f ret args (lookupList k s) (touchKey k s)
    hwf hc ho (by rw [lookup_touch]; exact hc)
  rw [emitEvent_str]
  refine ⟨?_, hl.1, ?_⟩
  · rw [(emitList_wf (pureEnv ret) (.str k) args (lookupList k s) (touchKey k s) hwf).2,
      count_cbIds f (lookupList k s) hwf, hc]
  · rw [hl.2, getOnce_touch]

theorem onceReturnValue_default_and_sentinel_removal_check :
    getOnceReturnValue ⟨[], none⟩ = JSArg.bool true ∧
    countF 3 (lookupList "a"
      (emitEvent (pureEnv fun _ => JSArg.num 5) (.str "a") [] stateSentinel).1) = 0 ∧
    countF 3 (lookupList "a"
      (emitEvent (pureEnv fun _ => JSArg.bool true) (.str "a") [] stateSentinel).1) = 1 := by
  refine ⟨onceReturnValue_default_and_sentinel_removal.1 [], ?_, ?_⟩
  · have h := (onceReturnValue_default_and_sentinel_removal.2 "a" 3
      (fun _ => JSArg.num 5) [] stateSentinel (by decide) (by decide) (by decide)).2.2
    rw [h]
    decide
  · have h := (onceReturnValue_default_and_sentinel_removal.2 "a" 3
      (fun _ => JSArg.bool true) [] stateSentinel (by decide) (by decide) (by decide)).2.2
    rw [h]
    decide

/-- C7: addListener throws exactly on argument values failing validation
(neither a function, nor a regexp, nor recursively a record whose listener
field is one of those), and the thrown error carries the input state
untouched since the throw precedes all mutation; a valid argument never
makes it throw. removeListener, defineEvent and emitEvent are total state
functions of the model: no validation error exists on those paths. -/
theorem addListener_invalid_listener_error (evt : Evt) (l : JSArg) (s : EE) :
    (isValidListener l = false → addListener evt l s = .error s) ∧
    (isValidListener l = true → ∃ t, addListener evt l s = .ok t) := by
  constructor
  · intro h
    unfold addListener
    rw [h]
    rfl
  · intro h
    unfold addListener
    rw [h]
    exact ⟨_, rfl⟩

theorem addListener_invalid_listener_error_check :
    addListener (.str "foo") (.num 42) emptyEE = .error emptyEE ∧
    ∃ t, addListener (.str "foo") (.fn 0) emptyEE = .ok t :=
  ⟨(addListener_invalid_listener_error (.str "foo") (.num 42) emptyEE).1 (by decide),
   (addListener_invalid_listener_error (.str "foo") (.fn 0) emptyEE).2 (by decide)⟩

/-- C8: when no resolved key stores a record whose underlying callback
strict-equals the argument (missing callback, missing event, or a pattern
resolving no key), removeListener leaves every stored listener array
unchanged; it is a total function of the model, never an error. -/
theorem removeListener_missing_noop (e : Evt) (x : JSArg) (s : EE) (kq : String)
    (h : ∀ t ∈ (resolveTargets e s).2,
      indexOfListener (lookupList t (resolveTargets e s).1) x = -1) :
    lookupList kq (removeListener e x s) = lookupList kq s := by
  cases e with
  | str k =>
    have hk := h k (by simp [resolveTargets])
    simp only [resolveTargets] at hk
    rw [lookup_touch] at hk
    unfold removeListener resolveTargets
    simp only [List.foldl_cons, List.foldl_nil]
    by_cases hkq : kq = k
    · subst hkq
      rw [lookup_update_self _ _ _ (touch_mem kq s), lookup_touch,
        rlm_no_match _ _ ((indexOf_eq_neg1_iff _ _).mp hk)]
    · rw [lookup_update_ne kq k _ _ hkq, lookup_touch]
  | regex p =>
    unfold removeListener resolveTargets
    cases hlast : (s.events.filter fun q => p.test q.1).getLast? with
    | none => simp only [hlast, List.foldl_nil]
    | some kv =>
      simp only [hlast, List.foldl_cons, List.foldl_nil]
      have hk := h kv.1 (by simp [resolveTargets, hlast])
      simp only [resolveTargets, hlast] at hk
      by_cases hkq : kq = kv.1
      · subst hkq
        rw [lookup_update_self _ _ _ (find?_isSome_of_getLast?_filter p s kv hlast),
          rlm_no_match _ _ ((indexOf_eq_neg1_iff _ _).mp hk)]
      · rw [lookup_update_ne kq kv.1 _ _ hkq]

theorem removeListener_missing_noop_check :
    lookupList "foo" (removeListener (.str "foo") (.fn 5) stateFooBar) =
      lookupList "foo" stateFooBar :=
  removeListener_missing_noop (.str "foo") (.fn 5) stateFooBar "foo" (by decide)

/-- C9: on a string or regexp selector, manipulateListeners applies the
singular add or remove operation to the entries of the listeners array in
reverse order: it equals the left-to-right loop over the reversed array,
so the last element is processed first. -/
theorem manipulateListeners_reverse_order
    (remove : Bool) (e : Evt) (ls : List JSArg) (s : EE) :
    manipulateListeners remove (.key e) ls s = applyEachLeft remove e ls.reverse s := by
  show manipulateKeyLoop remove e ls s = applyEachLeft remove e ls.reverse s
  induction ls generalizing s with
  | nil => rfl
  | cons l rest ih =>
    rw [manipulateKeyLoop_cons, List.reverse_cons, applyEachLeft_append, ← ih]
    cases hloop : manipulateKeyLoop remove e rest s with
    | error t => rfl
    | ok s1 => simp [Except.bind, applyEachLeft_single]

/-- C10: addOnceListener twice with the same callback on the same key
stores two records with that underlying callback: each call appends
unconditionally, because the duplicate check compares the stored underlying
callbacks against the freshly constructed wrapper record, which
strict-equals nothing. -/
theorem addOnceListener_twice_duplicates (k : String) (f : Nat) (s : EE) :
    ∃ s1 s2, addOnceListener (.str k) (.fn f) s = .ok s1 ∧
      addOnceListener (.str k) (.fn f) s1 = .ok s2 ∧
      lookupList k s1 = lookupList k s ++ [.obj (.fn f) true] ∧
      lookupList k s2 = lookupList k s ++ [.obj (.fn f) true, .obj (.fn f) true] := by
  have hstep : ∀ t : EE, addOnceListener (.str k) (.fn f) t =
      .ok (updateList k (fun cur => cur ++ [.obj (.fn f) true]) (touchKey k t)) := by
    intro t
    show addListener (.str k) (.obj (.fn f) true) t = _
    rw [addListener_str k (.obj (.fn f) true) t rfl, if_pos (indexOf_obj _ _ _)]
    rfl
  have hlook : ∀ t : EE, lookupList k
      (updateList k (fun cur => cur ++ [.obj (.fn f) true]) (touchKey k t)) =
      lookupList k t ++ [.obj (.fn f) true] := by
    intro t
    rw [lookup_update_self _ _ _ (touch_mem k t), lookup_touch]
  refine ⟨_, _, hstep s, hstep _, hlook s, ?_⟩
  rw [hlook _, hlook s, List.append_assoc]
  rfl

end EventEmitterModel
